import Mathlib

/-!
Shallow embedding of the RustyCalc core (expression evaluator and unit
conversion engine) and verification of the frozen claims.

Conventions of the embedding:
* Rust `f64` values are modelled as exact rationals (`ℚ`).  Decimal literals
  of the source are taken at their exact decimal value; IEEE-754 rounding,
  overflow to infinity inside in-range arithmetic, and division-by-zero
  producing infinities are not modelled.  No confirmed claim depends on
  those effects; where a claim touches them this is noted at the claim.
* `f64::powf` is modelled exactly on integer exponents (the only exponents
  the claims exercise, where the machine result is exact as well); on a
  non-integer exponent the model returns the junk value 0, which no claim
  reaches.
* Rust panics (`unwrap`, `panic!`) are modelled explicitly: the tokenizer
  returns a dedicated `panicked` result, and the AST-evaluation helpers
  return `Option ℚ` with `none` for the `panic!` arms of
  `Token::perform_binary` / `perform_unary`.
* Recursion of the tokenizer and the recursive-descent parser is realised
  with an explicit fuel parameter so all definitions are structural and
  compute by `rfl`.  Every loop iteration / recursive descent of the source
  consumes at least one token, so the fuel supplied by the wrappers
  (`length + 1`, resp. `4 * length + 4`) is ample; fuel exhaustion yields a
  dedicated error string that never coincides with a source error message.
-/

attribute [local semireducible] Rat.add Rat.sub Rat.mul Rat.inv Rat.ofScientific

namespace RustyCalc

/-- Angle mode, from `evaluator/mod.rs` (`AngleMode`); default is Degrees. -/
inductive AngleMode
  | degrees
  | radians
  | gradians
deriving DecidableEq, Repr

/-- A registered unary function.  The source `Function` carries a name and an
`fn(f64, &AngleMode) -> f64` pointer; the numeric semantics of the
transcendental functions is not expressible over `ℚ`, so the model keeps the
name and the theorems quantify over an arbitrary semantics
`sem : Function → ℚ → AngleMode → ℚ` where it is needed. -/
structure Function where
  name : String
deriving DecidableEq, Repr

/-- A registered constant, from `evaluator/constants.rs` (`Constant`). -/
structure Constant where
  name : String
  value : ℚ
deriving DecidableEq, Repr

/-- Token, from `evaluator/mod.rs` (`Token`).  `Number` carries the parsed
value; `UnaryFunction` carries the registered function (by its name). -/
inductive Token
  | number (value : ℚ)
  | plus
  | minus
  | multiply
  | divide
  | exponent
  | openParen
  | closeParen
  | unaryFunction (f : Function)
deriving DecidableEq, Repr

/-- AST node, from `evaluator/mod.rs` (`AstNode`). -/
inductive AstNode
  | number (value : ℚ)
  | unaryOp (op : Token) (expr : AstNode)
  | binaryOp (left : AstNode) (op : Token) (right : AstNode)
  | function (func : Function) (expr : AstNode)
deriving DecidableEq, Repr

/-- Exact model of `f64::powf` for the integer exponents the claims reach
(where the machine computation is exact too); 0 is a junk value on the
unreachable non-integer branch. -/
def powf (x y : ℚ) : ℚ :=
  if y.den = 1 then x ^ y.num else 0

/-- The function-semantics parameter: interpretation of a registered
function applied to a value under an angle mode (stands for the `function`
field of the source `Function` struct). -/
abbrev FuncSem := Function → ℚ → AngleMode → ℚ

/-- `Token::perform_binary` from `evaluator/mod.rs`; the source panics on a
non-operator token, modelled by `none`. -/
def Token.perform_binary : Token → ℚ → ℚ → Option ℚ
  | .plus, l, r => some (l + r)
  | .minus, l, r => some (l - r)
  | .multiply, l, r => some (l * r)
  | .divide, l, r => some (l / r)
  | .exponent, l, r => some (powf l r)
  | _, _, _ => none

/-- `Token::perform_unary` from `evaluator/mod.rs`; the source panics on a
non-unary token, modelled by `none`. -/
def Token.perform_unary (sem : FuncSem) (mode : AngleMode) : Token → ℚ → Option ℚ
  | .minus, v => some (-v)
  | .unaryFunction f, v => some (sem f v mode)
  | _, _ => none

/-- `AstNode::evaluate` from `evaluator/mod.rs`: pure recursive walk.  The
`Option` propagates the (unreachable for parser-built trees) panic arms of
`perform_binary` / `perform_unary`. -/
def AstNode.evaluate (sem : FuncSem) (mode : AngleMode) : AstNode → Option ℚ
  | .number v => some v
  | .unaryOp op e =>
      match e.evaluate sem mode with
      | none => none
      | some v => op.perform_unary sem mode v
  | .binaryOp l op r =>
      match l.evaluate sem mode, r.evaluate sem mode with
      | some a, some b => op.perform_binary a b
      | _, _ => none
  | .function f e =>
      match e.evaluate sem mode with
      | none => none
      | some v => some (sem f v mode)

/-- The function register of `evaluator/functions.rs::get_all`, in source
order (only the names are needed by the tokenizer). -/
def function_register : List Function :=
  [⟨"sin"⟩, ⟨"cos"⟩, ⟨"tan"⟩, ⟨"asin"⟩, ⟨"acos"⟩, ⟨"atan"⟩,
   ⟨"cosec"⟩, ⟨"sec"⟩, ⟨"cot"⟩, ⟨"acosec"⟩, ⟨"asec"⟩, ⟨"acot"⟩,
   ⟨"sinh"⟩, ⟨"cosh"⟩, ⟨"tanh"⟩, ⟨"asinh"⟩, ⟨"acosh"⟩, ⟨"atanh"⟩,
   ⟨"exp"⟩, ⟨"ln"⟩, ⟨"log"⟩, ⟨"log2"⟩, ⟨"sqrt"⟩, ⟨"abs"⟩,
   ⟨"ceil"⟩, ⟨"floor"⟩, ⟨"factorial"⟩]

/-- Exact rational value of the `f64` constant `std::f64::consts::PI`. -/
def piF64 : ℚ := 884279719003555 / 281474976710656

/-- Exact rational value of the `f64` constant `std::f64::consts::E`. -/
def eF64 : ℚ := 6121026514868073 / 2251799813685248

/-- The constant register of `evaluator/constants.rs::get_all`, in source
order.  Literal values are taken at their exact decimal value. -/
def constant_register : List Constant :=
  [⟨"π", piF64⟩, ⟨"e", eF64⟩, ⟨"Φ", 1.61803⟩,
   ⟨"C", 299792458⟩, ⟨"ℎ", 6.626e-34⟩, ⟨"G", 6.674e-11⟩]

/-- `Function::is_token` from `evaluator/functions.rs`.  The source measures
the name in bytes when slicing the char vector; every registered function
name is ASCII so byte length and char length coincide, and the model uses
the char length.  The next-character check uses ASCII alphanumericity
(`Char.isAlphanum`); the source's Unicode `is_alphanumeric` differs only on
non-ASCII following characters, which no claim exercises. -/
def Function.is_token (f : Function) (chars : List Char) (exp_len i : Nat) :
    Option (Token × Nat) :=
  let name_chars := f.name.data
  let n := name_chars.length
  if i + n - 1 < exp_len ∧ (chars.drop i).take n = name_chars then
    if i + n < exp_len ∧ (chars.getD (i + n) ' ').isAlphanum then
      none
    else
      some (Token.unaryFunction f, n)
  else
    none

/-- `Constant::is_token` from `evaluator/constants.rs` (dead code in the
source: the tokenizer never calls it).  Mirrors the source body; the
out-of-bounds slice the source would take before its length test is
truncated by `List.take`, a divergence unreachable for the catalog's
one-character names. -/
def Constant.is_token (c : Constant) (chars : List Char) (exp_len i : Nat) :
    Option (Token × Nat) :=
  let cons_as_chars := c.name.data
  let name_len := cons_as_chars.length
  let expr_chars_to_compare := (chars.drop i).take name_len
  if i + name_len - 1 < exp_len ∧ expr_chars_to_compare = cons_as_chars then
    if i + name_len < exp_len ∧ (chars.getD (i + name_len) ' ').isAlphanum then
      none
    else
      some (Token.number c.value, name_len)
  else
    none

/-- `tokeniser.rs::parse_functions`: try each registered function in order;
note that the source consults only the function register, never the
constant register. -/
def parse_functions (chars : List Char) (exp_len i : Nat) :
    Except String (Token × Nat) :=
  match function_register.findSome? (fun f => f.is_token chars exp_len i) with
  | some tc => .ok tc
  | none =>
      .error ("Invalid token '" ++ toString (chars.getD i ' ') ++
        "' at position: " ++ toString i)

/-- Result of tokenization: `panicked` models the `unwrap()` panic on a
digit/dot run that does not parse as an `f64`. -/
inductive TokResult
  | ok (tokens : List Token)
  | err (msg : String)
  | panicked
deriving DecidableEq, Repr

/-- Fold a list of ASCII digits to the natural number they denote. -/
def digitsToNat (cs : List Char) : Nat :=
  cs.foldl (fun a c => 10 * a + (c.toNat - '0'.toNat)) 0

/-- Model of Rust `str::parse::<f64>` restricted to the strings the
tokenizer can pass it (non-empty runs of digits and dots): the parse
succeeds exactly when there is at most one dot and at least one digit, and
the value is the exact decimal rational (f64 nearest-rounding is not
modelled; the claims only exercise values where the two agree). -/
def parse_f64 (cs : List Char) : Option ℚ :=
  if cs.count '.' ≤ 1 ∧ cs.any (fun c => c.isDigit) then
    let ip := cs.takeWhile (fun c => c.isDigit)
    let rest := cs.drop ip.length
    let fp := rest.drop 1
    some ((digitsToNat ip : ℚ) + (digitsToNat fp : ℚ) / ((10 : ℚ) ^ fp.length))
  else
    none

/-- Fueled main loop of `tokeniser.rs::tokenize`.  Each iteration consumes
at least one character, so fuel `chars.length + 1` never runs out. -/
def tokenizeAux : Nat → List Char → Nat → List Token → TokResult
  | 0, _, _, _ => .err "Tokenizer fuel exhausted"
  | fuel + 1, chars, i, acc =>
    if _h : i < chars.length then
      let c := chars.getD i ' '
      if c.isDigit ∨ c = '.' then
        let run := (chars.drop i).takeWhile (fun ch => ch.isDigit || ch == '.')
        match parse_f64 run with
        | none => .panicked
        | some q => tokenizeAux fuel chars (i + run.length) (acc ++ [Token.number q])
      else if c = '+' then tokenizeAux fuel chars (i + 1) (acc ++ [Token.plus])
      else if c = '-' then tokenizeAux fuel chars (i + 1) (acc ++ [Token.minus])
      else if c = '*' then tokenizeAux fuel chars (i + 1) (acc ++ [Token.multiply])
      else if c = '/' then tokenizeAux fuel chars (i + 1) (acc ++ [Token.divide])
      else if c = '^' then tokenizeAux fuel chars (i + 1) (acc ++ [Token.exponent])
      else if c = '(' then tokenizeAux fuel chars (i + 1) (acc ++ [Token.openParen])
      else if c = ')' then tokenizeAux fuel chars (i + 1) (acc ++ [Token.closeParen])
      else if c = ' ' ∨ c = '\n' then tokenizeAux fuel chars (i + 1) acc
      else
        match parse_functions chars chars.length i with
        | .ok (t, consumed) => tokenizeAux fuel chars (i + consumed) (acc ++ [t])
        | .error e => .err e
    else
      .ok acc

/-- `tokeniser.rs::tokenize`: scan the expression by Unicode codepoint. -/
def tokenize (expression : String) : TokResult :=
  tokenizeAux (expression.data.length + 1) expression.data 0 []

/-- Rust `derive(Debug)` rendering of a token, as used by the parser's
`Unexpected token: {:?}` message.  The `number` and `unaryFunction` arms are
unreachable from that message (the parser matches those constructors
earlier), so their rendering is a total stand-in for Rust's float/struct
debug output. -/
def debugFmt : Token → String
  | .number v => "Number(" ++ toString v.num ++ "/" ++ toString v.den ++ ")"
  | .plus => "Plus"
  | .minus => "Minus"
  | .multiply => "Multiply"
  | .divide => "Divide"
  | .exponent => "Exponent"
  | .openParen => "OpenParen"
  | .closeParen => "CloseParen"
  | .unaryFunction f => "UnaryFunction(" ++ f.name ++ ")"

/-- Parser-step result: the outcome of `parser.rs` routines together with
the tokens left after the routine's cursor (the source keeps a cursor into
the token vector; the model passes the remaining suffix, which the source
preserves even through error returns). -/
abbrev PR := Except String AstNode × List Token

/-- Error used only when the parser model's (always ample) fuel runs out;
distinct from every source error message. -/
def fuelMsg : String := "Parser fuel exhausted"

mutual

/-- `Parser::parse_primary` from `parser.rs` (fueled).  Each arm consumes
tokens exactly as the source's `next_token` calls do, including on the
error paths. -/
def parsePrimary : Nat → List Token → PR
  | 0, ts => (.error fuelMsg, ts)
  | _ + 1, [] => (.error "Unexpected end of token stream", [])
  | _ + 1, Token.number v :: rest => (.ok (AstNode.number v), rest)
  | fuel + 1, Token.openParen :: rest =>
      match parseAddSub fuel rest with
      | (r, Token.closeParen :: rest2) => (r, rest2)
      | (_, _ :: rest2) => (.error "Unmatched opening parenthesis", rest2)
      | (_, []) => (.error "Unmatched opening parenthesis", [])
  | fuel + 1, Token.minus :: rest =>
      match parsePrimary fuel rest with
      | (.error e, rest1) => (.error e, rest1)
      | (.ok e, rest1) => (.ok (AstNode.unaryOp Token.minus e), rest1)
  | fuel + 1, Token.unaryFunction f :: rest =>
      match rest with
      | Token.openParen :: rest1 =>
          match parseAddSub fuel rest1 with
          | (.error e, rest2) => (.error e, rest2)
          | (.ok e, rest2) =>
              match rest2 with
              | Token.closeParen :: rest3 => (.ok (AstNode.function f e), rest3)
              | _ :: rest3 => (.error "Unmatched opening parenthesis", rest3)
              | [] => (.error "Unmatched opening parenthesis", [])
      | _ :: rest1 => (.error "Function must be followed by opening parenthesis", rest1)
      | [] => (.error "Function must be followed by opening parenthesis", [])
  | _ + 1, t :: rest => (.error ("Unexpected token: " ++ debugFmt t), rest)

/-- `Parser::parse_exponent` from `parser.rs`: a primary followed by the
left-to-right `^` accumulation loop. -/
def parseExponent : Nat → List Token → PR
  | 0, ts => (.error fuelMsg, ts)
  | fuel + 1, ts =>
      match parsePrimary fuel ts with
      | (.error e, rest) => (.error e, rest)
      | (.ok node, rest) => parseExpLoop fuel node rest

/-- The `while` loop of `parse_exponent`. -/
def parseExpLoop : Nat → AstNode → List Token → PR
  | 0, _, ts => (.error fuelMsg, ts)
  | fuel + 1, node, Token.exponent :: rest =>
      match parsePrimary fuel rest with
      | (.error e, rest1) => (.error e, rest1)
      | (.ok right, rest1) =>
          parseExpLoop fuel (AstNode.binaryOp node Token.exponent right) rest1
  | _ + 1, node, ts => (.ok node, ts)

/-- `Parser::parse_mul_div` from `parser.rs`. -/
def parseMulDiv : Nat → List Token → PR
  | 0, ts => (.error fuelMsg, ts)
  | fuel + 1, ts =>
      match parseExponent fuel ts with
      | (.error e, rest) => (.error e, rest)
      | (.ok node, rest) => parseMulDivLoop fuel node rest

/-- The `while` loop of `parse_mul_div`. -/
def parseMulDivLoop : Nat → AstNode → List Token → PR
  | 0, _, ts => (.error fuelMsg, ts)
  | fuel + 1, node, Token.multiply :: rest =>
      match parseExponent fuel rest with
      | (.error e, rest1) => (.error e, rest1)
      | (.ok right, rest1) =>
          parseMulDivLoop fuel (AstNode.binaryOp node Token.multiply right) rest1
  | fuel + 1, node, Token.divide :: rest =>
      match parseExponent fuel rest with
      | (.error e, rest1) => (.error e, rest1)
      | (.ok right, rest1) =>
          parseMulDivLoop fuel (AstNode.binaryOp node Token.divide right) rest1
  | _ + 1, node, ts => (.ok node, ts)

/-- `Parser::parse_add_sub` from `parser.rs` (also `parse_expression` and
the body of `Parser::parse`). -/
def parseAddSub : Nat → List Token → PR
  | 0, ts => (.error fuelMsg, ts)
  | fuel + 1, ts =>
      match parseMulDiv fuel ts with
      | (.error e, rest) => (.error e, rest)
      | (.ok node, rest) => parseAddSubLoop fuel node rest

/-- The `while` loop of `parse_add_sub`. -/
def parseAddSubLoop : Nat → AstNode → List Token → PR
  | 0, _, ts => (.error fuelMsg, ts)
  | fuel + 1, node, Token.plus :: rest =>
      match parseMulDiv fuel rest with
      | (.error e, rest1) => (.error e, rest1)
      | (.ok right, rest1) =>
          parseAddSubLoop fuel (AstNode.binaryOp node Token.plus right) rest1
  | fuel + 1, node, Token.minus :: rest =>
      match parseMulDiv fuel rest with
      | (.error e, rest1) => (.error e, rest1)
      | (.ok right, rest1) =>
          parseAddSubLoop fuel (AstNode.binaryOp node Token.minus right) rest1
  | _ + 1, node, ts => (.ok node, ts)

end

/-- Ample fuel for a token list: the source's recursion consumes at least
one token per descent cycle and per loop iteration, and the model spends at
most four fuel units per consumed token. -/
def parseFuel (ts : List Token) : Nat := 4 * ts.length + 4

/-- `Parser::parse` from `parser.rs`: parse an expression from the start of
the token list; tokens left over after the expression are ignored. -/
def Parser.parse (ts : List Token) : Except String AstNode :=
  (parseAddSub (parseFuel ts) ts).1

/-- Result of `Evaluator::evaluate`: `Ok`/`Err` of the source, plus
`panicked` for the tokenizer's `unwrap` panic (which aborts the process in
the source rather than returning). -/
inductive EvalOut
  | ok (value : ℚ)
  | err (msg : String)
  | panicked
deriving DecidableEq, Repr

/-- `Evaluator::evaluate` from `evaluator/mod.rs`: empty-input check, then
tokenize → parse → AST evaluation (history recording and timing are I/O
side effects with no bearing on the result and are not modelled). -/
def evaluate (sem : FuncSem) (mode : AngleMode) (expression : String) : EvalOut :=
  if expression = "" then
    .err "Please supply an expression to evaluate"
  else
    match tokenize expression with
    | .panicked => .panicked
    | .err e => .err e
    | .ok tokens =>
        match Parser.parse tokens with
        | .error e => .err e
        | .ok ast =>
            match ast.evaluate sem mode with
            | some v => .ok v
            | none => .panicked

/-- Value model for the factorial claim: a finite `f64` (exact rational),
or one of the special values the factorial body can meet or produce. -/
inductive FloatVal
  | num (q : ℚ)
  | inf
  | negInf
  | nan
deriving DecidableEq, Repr

/-- Product of the integers `2..m` (exclusive upper bound), the loop of the
source factorial; empty (1) when `m ≤ 2`, as in Rust's `2..m` range. -/
def prodFrom2 (m : ℤ) : ℚ :=
  ((List.range (m - 2).toNat).map (fun i => ((i : ℚ) + 2))).prod

/-- The `factorial` closure of `evaluator/functions.rs::get_all`:
`v > 170 → +∞`; non-zero fractional part → NaN; otherwise the product of
the integers `2..floor(v)` with `v` itself as the final multiplicand.  On
the special values: `+∞ > 170` holds, and `fract` of `-∞`/NaN is NaN, which
compares unequal to 0.  The in-range product is computed exactly (its `f64`
rounding is not modelled; it cannot overflow since `170! < 2^1024`). -/
def factorial : FloatVal → FloatVal
  | .inf => .inf
  | .negInf => .nan
  | .nan => .nan
  | .num v =>
      if 170 < v then .inf
      else if v.den ≠ 1 then .nan
      else .num (prodFrom2 ⌊v⌋ * v)

namespace conversions

/-- Measurement system, from `conversions/mod.rs` (`System`); Metric is the
default. -/
inductive System
  | metric
  | imperial
  | us
deriving DecidableEq, Repr

/-- `System::is_default` from `conversions/mod.rs`. -/
def System.is_default (s : System) : Bool := s == System.metric

/-- Physical dimension, from `conversions/mod.rs` (`Dimension`). -/
inductive Dimension
  | length
  | area
  | mass
  | volume
  | temp
  | power
  | torque
  | force
  | energy
deriving DecidableEq, Repr

/-- Unit of measure, from `conversions/mod.rs` (`Unit`): a name, dimension,
system, and four optional conversion functions. -/
structure Unit where
  name : String
  dimension : Dimension
  system : System
  to_base : Option (ℚ → ℚ)
  from_base : Option (ℚ → ℚ)
  to_system_base : Option (ℚ → ℚ)
  from_system_base : Option (ℚ → ℚ)

/-- The source `impl PartialEq for Unit`: equality is by name only. -/
def Unit.beq (a b : Unit) : Bool := a.name == b.name

/-- `conversions/mod.rs::convert`: name-equality short-circuit, then select
the system-base pair for same-system same-dimension non-default pairs and
the dimension-base pair otherwise, applying each selected function only if
present. -/
def convert (value : ℚ) (fromU toU : Unit) : ℚ :=
  if Unit.beq fromU toU then value
  else
    let sel :=
      if fromU.system = toU.system ∧ fromU.dimension = toU.dimension ∧
          fromU.system.is_default = false then
        (fromU.to_system_base, toU.from_system_base)
      else
        (fromU.to_base, toU.from_base)
    let r1 :=
      match sel.1 with
      | some f => f value
      | none => value
    match sel.2 with
    | some f => f r1
    | none => r1

/-- `conversions/mod.rs::try_convert`: delegate when both units are
present, otherwise warn and return 0. -/
def try_convert (value : ℚ) (fromU toU : Option Unit) : ℚ :=
  match fromU, toU with
  | some f, some t => convert value f t
  | _, _ => 0

/-- `mass.rs::OUNCES_PER_KILO`. -/
def OUNCES_PER_KILO : ℚ := 35.2739619495804

/-- `mass.rs::KILOGRAM` (the Mass dimension base unit). -/
def KILOGRAM : Unit :=
  { name := "Kilogram", dimension := .mass, system := .metric,
    to_base := none, from_base := none,
    to_system_base := none, from_system_base := none }

/-- `mass.rs::GRAM`. -/
def GRAM : Unit :=
  { name := "Gram", dimension := .mass, system := .metric,
    to_base := some (fun v => v / 1e3), from_base := some (fun v => v * 1e3),
    to_system_base := none, from_system_base := none }

/-- `mass.rs::OUNCE` (the Imperial Mass system base unit). -/
def OUNCE : Unit :=
  { name := "Ounce", dimension := .mass, system := .imperial,
    to_base := some (fun v => v / OUNCES_PER_KILO),
    from_base := some (fun v => v * OUNCES_PER_KILO),
    to_system_base := none, from_system_base := none }

/-- `mass.rs::POUND`. -/
def POUND : Unit :=
  { name := "Pound", dimension := .mass, system := .imperial,
    to_base := some (fun v => v * 16 / OUNCES_PER_KILO),
    from_base := some (fun v => v * OUNCES_PER_KILO / 16),
    to_system_base := some (fun v => v * 16),
    from_system_base := some (fun v => v / 16) }

/-- `mass.rs::TON` (the long ton). -/
def TON : Unit :=
  { name := "Long Ton", dimension := .mass, system := .imperial,
    to_base := some (fun v => v * 2240 * 16 / OUNCES_PER_KILO),
    from_base := some (fun v => v * OUNCES_PER_KILO / (2240 * 16)),
    to_system_base := some (fun v => v * 2240 * 16),
    from_system_base := some (fun v => v / (2240 * 16)) }

/-- `mass.rs::TON_SHORT`. -/
def TON_SHORT : Unit :=
  { name := "Short Ton", dimension := .mass, system := .imperial,
    to_base := some (fun v => v * 2000 * 16 / OUNCES_PER_KILO),
    from_base := some (fun v => v * OUNCES_PER_KILO / (2000 * 16)),
    to_system_base := some (fun v => v * 2000 * 16),
    from_system_base := some (fun v => v / (2000 * 16)) }

/-- `volume.rs::IMP_FL_OUNCE` (the Imperial Volume system base unit: its
system-base functions are `None`). -/
def IMP_FL_OUNCE : Unit :=
  { name := "Imp Fl Ounce", dimension := .volume, system := .imperial,
    to_base := some (fun v => v / 35.19507973),
    from_base := some (fun v => v * 35.19507973),
    to_system_base := none, from_system_base := none }

/-- `volume.rs::IMP_CUBIC_INCH`.  Note that `to_system_base` and
`from_system_base` both multiply by the same factor 1.733871455 (cubic
inches per fluid ounce), exactly as in the source. -/
def IMP_CUBIC_INCH : Unit :=
  { name := "Cubic Inch", dimension := .volume, system := .imperial,
    to_base := some (fun v => v / 61.02374409),
    from_base := some (fun v => v * 61.02374409),
    to_system_base := some (fun v => v * 1.733871455),
    from_system_base := some (fun v => v * 1.733871455) }

/-- `volume.rs::IMP_PINT`. -/
def IMP_PINT : Unit :=
  { name := "Imp Pint", dimension := .volume, system := .imperial,
    to_base := some (fun v => v / 1.759753986),
    from_base := some (fun v => v * 1.759753986),
    to_system_base := some (fun v => v * 20),
    from_system_base := some (fun v => v / 20) }

/-- Companion definition for claim C3, following the specification's words:
"if from.system == to.system and from.dimension == to.dimension and the
system is not Metric, convert applies from.to_system_base then
to.from_system_base; otherwise it applies from.to_base then to.from_base;
in both cases each of the two selected functions is applied only if present
(a None is skipped), and the result is returned." -/
def convertSpecC3 (value : ℚ) (fromU toU : Unit) : ℚ :=
  let pair :=
    if fromU.system = toU.system ∧ fromU.dimension = toU.dimension ∧
        fromU.system ≠ System.metric then
      (fromU.to_system_base, toU.from_system_base)
    else
      (fromU.to_base, toU.from_base)
  let r1 :=
    match pair.1 with
    | some f => f value
    | none => value
  match pair.2 with
  | some f => f r1
  | none => r1

end conversions

section claims

open conversions

/-- C1: the specification says every registered constant name occurring at
a token start is tokenized as a `Number` carrying the constant's value.
The code does not do this: `tokeniser.rs::parse_functions` consults only
the function register, so the constant name `π` — which is the first entry
of the constant register and which the (never-called) `Constant::is_token`
would match, yielding `Number(π)` — instead fails tokenization and
evaluation with the invalid-token error. -/
theorem c1_constants_not_tokenized :
    tokenize "π" = .err "Invalid token 'π' at position: 0" ∧
    (∀ (sem : FuncSem) (mode : AngleMode),
      evaluate sem mode "π" = .err "Invalid token 'π' at position: 0") ∧
    constant_register.head? = some ⟨"π", piF64⟩ ∧
    Constant.is_token ⟨"π", piF64⟩ "π".data 1 0 = some (Token.number piF64, 1) :=
  ⟨rfl, fun _ _ => rfl, rfl, rfl⟩

/-- C2: the specification says `Evaluator::evaluate` never panics, and that
a maximal digit/dot run always becomes a `Number` token or an `Err`.  The
code calls `num_str.parse::<f64>().unwrap()`, which panics when the run is
`"."` or `"1.2.3"` (no digit next to a lone dot, or two dots), so both
tokenization and evaluation abort instead of returning a `Result`. -/
theorem c2_tokenizer_panics_on_malformed_number :
    tokenize "." = .panicked ∧
    tokenize "1.2.3" = .panicked ∧
    (∀ (sem : FuncSem) (mode : AngleMode),
      evaluate sem mode "." = .panicked ∧ evaluate sem mode "1.2.3" = .panicked) :=
  ⟨rfl, rfl, fun _ _ => ⟨rfl, rfl⟩⟩

/-- C3: for units with different names, `convert` follows exactly the
selection rule stated by the specification (system-base pair for
same-system, same-dimension, non-Metric pairs; dimension-base pair
otherwise; a `None` function is skipped). -/
theorem c3_convert_selection_rule (value : ℚ) (fromU toU : conversions.Unit)
    (h : fromU.name ≠ toU.name) :
    convert value fromU toU = convertSpecC3 value fromU toU := by
  have hbeq : Unit.beq fromU toU = false := by
    simp only [Unit.beq, beq_eq_false_iff_ne, ne_eq]
    exact h
  have hcond : (fromU.system = toU.system ∧ fromU.dimension = toU.dimension ∧
      fromU.system.is_default = false) ↔
      (fromU.system = toU.system ∧ fromU.dimension = toU.dimension ∧
      fromU.system ≠ System.metric) := by
    simp only [System.is_default, beq_eq_false_iff_ne, ne_eq]
  unfold convert convertSpecC3
  rw [hbeq]
  simp only [Bool.false_eq_true, if_false]
  rw [if_congr hcond rfl rfl]

/-- Witness for C3 at a concrete cross-system pair (Ounce → Gram). -/
theorem c3_convert_selection_rule_witness :
    OUNCE.name ≠ GRAM.name ∧ convert 5 OUNCE GRAM = convertSpecC3 5 OUNCE GRAM :=
  ⟨by decide, c3_convert_selection_rule 5 OUNCE GRAM (by decide)⟩

/-- C4: the specification's round-trip law fails on the code.  The source
`IMP_CUBIC_INCH` multiplies by 1.733871455 in BOTH `to_system_base` and
`from_system_base`, so the Cubic Inch → Imp Fl Ounce → Cubic Inch round
trip of 1.0 returns 1.733871455² ≈ 3.006 instead of ≈ 1 — far outside any
small relative tolerance.  For contrast, the same-system integer-factor
pairs the claim singles out do round-trip exactly (Long Ton ↔ Short Ton,
Pound ↔ Ounce). -/
theorem c4_roundtrip_violated_by_cubic_inch :
    convert (convert 1 IMP_CUBIC_INCH IMP_FL_OUNCE) IMP_FL_OUNCE IMP_CUBIC_INCH =
      1.733871455 * 1.733871455 ∧
    3 < convert (convert 1 IMP_CUBIC_INCH IMP_FL_OUNCE) IMP_FL_OUNCE IMP_CUBIC_INCH ∧
    convert (convert 2 TON TON_SHORT) TON_SHORT TON = 2 ∧
    convert (convert 1 POUND OUNCE) OUNCE POUND = 1 :=
  ⟨by decide, by decide, by decide, by decide⟩

/-- C5: `convert` returns its input unchanged whenever the two units have
equal names (unit equality is by name only), hence `convert(x, u, u) = x`
exactly for every unit. -/
theorem c5_convert_identity (u v : conversions.Unit) (x : ℚ) (h : u.name = v.name) :
    convert x u v = x := by
  have hbeq : Unit.beq u v = true := by
    simp only [Unit.beq, beq_iff_eq]
    exact h
  unfold convert
  rw [hbeq]
  simp

/-- Witness for C5 at a concrete unit (Ounce, same unit twice). -/
theorem c5_convert_identity_witness :
    OUNCE.name = OUNCE.name ∧ convert 3 OUNCE OUNCE = 3 :=
  ⟨rfl, c5_convert_identity OUNCE OUNCE 3 rfl⟩

/-- C6: the factorial function follows the claim's three cases — `> 170`
gives `+∞`, a non-zero fractional part gives NaN, and otherwise the result
is the product of the integers `2..⌊v⌋` with `v` itself as the final
multiplicand — and the claim's concrete values hold: `factorial 5 = 120`,
`factorial 1 = 1`, `factorial 170` is finite, `factorial 300 = +∞`, and
`factorial 5.5` is NaN.  (The in-range product is modelled in exact
arithmetic; the `f64` value of `170!` ≈ 7.26·10³⁰⁶ is below the `f64`
maximum, so the machine computation is finite as well.) -/
theorem c6_factorial_cases :
    (∀ q : ℚ, 170 < q → factorial (.num q) = .inf) ∧
    (∀ q : ℚ, ¬ 170 < q → q.den ≠ 1 → factorial (.num q) = .nan) ∧
    (∀ q : ℚ, ¬ 170 < q → q.den = 1 →
      factorial (.num q) = .num (prodFrom2 ⌊q⌋ * q)) ∧
    factorial (.num 5) = .num 120 ∧
    factorial (.num 1) = .num 1 ∧
    (∃ r : ℚ, factorial (.num 170) = .num r) ∧
    factorial (.num 300) = .inf ∧
    factorial (.num (5.5 : ℚ)) = .nan := by
  have h1 : ∀ q : ℚ, 170 < q → factorial (.num q) = .inf := by
    intro q h
    simp only [factorial]
    rw [if_pos h]
  have h3 : ∀ q : ℚ, ¬ 170 < q → q.den = 1 →
      factorial (.num q) = .num (prodFrom2 ⌊q⌋ * q) := by
    intro q h hd
    simp only [factorial]
    rw [if_neg h, if_neg (by simp [hd])]
  refine ⟨h1, ?_, h3, rfl, rfl, ⟨prodFrom2 ⌊(170 : ℚ)⌋ * 170, ?_⟩, rfl, rfl⟩
  · intro q h hd
    simp only [factorial]
    rw [if_neg h, if_pos hd]
  · exact h3 170 (by norm_num) (by decide)

/-- Witness for C6: the overflow guard at a concrete value above 170, and
the exact-product case at the concrete value 6. -/
theorem c6_factorial_cases_witness :
    ((170 : ℚ) < 200 ∧ factorial (.num 200) = .inf) ∧
    (¬ (170 : ℚ) < 6 ∧ (6 : ℚ).den = 1 ∧
      factorial (.num 6) = .num (prodFrom2 ⌊(6 : ℚ)⌋ * 6)) :=
  ⟨⟨by decide, c6_factorial_cases.1 200 (by decide)⟩,
   ⟨by decide, by decide, c6_factorial_cases.2.2.1 6 (by decide) (by decide)⟩⟩

/-- C7: the exponent operator parses left-associatively —
`evaluate("2 ^ 3 ^ 2")` is `Ok(64.0)` with AST `(2^3)^2` — and every
binary precedence level (add/subtract, multiply/divide, exponent)
accumulates left-to-right on a three-operand token sequence. -/
theorem c7_exponent_left_associative :
    (∀ (sem : FuncSem) (mode : AngleMode),
      evaluate sem mode "2 ^ 3 ^ 2" = .ok 64) ∧
    (∀ a b c : ℚ, Parser.parse
        [.number a, .exponent, .number b, .exponent, .number c] =
      .ok (.binaryOp (.binaryOp (.number a) .exponent (.number b)) .exponent
        (.number c))) ∧
    (∀ (a b c : ℚ) (op1 op2 : Token),
      (op1 = Token.plus ∨ op1 = Token.minus) →
      (op2 = Token.plus ∨ op2 = Token.minus) →
      Parser.parse [.number a, op1, .number b, op2, .number c] =
        .ok (.binaryOp (.binaryOp (.number a) op1 (.number b)) op2 (.number c))) ∧
    (∀ (a b c : ℚ) (op1 op2 : Token),
      (op1 = Token.multiply ∨ op1 = Token.divide) →
      (op2 = Token.multiply ∨ op2 = Token.divide) →
      Parser.parse [.number a, op1, .number b, op2, .number c] =
        .ok (.binaryOp (.binaryOp (.number a) op1 (.number b)) op2 (.number c))) := by
  refine ⟨fun _ _ => rfl, fun a b c => rfl, ?_, ?_⟩ <;>
    { intro a b c op1 op2 h1 h2
      rcases h1 with rfl | rfl <;> rcases h2 with rfl | rfl <;> rfl }

/-- Witness for C7 at concrete operators `+`/`-` and `*`/`/`. -/
theorem c7_exponent_left_associative_witness :
    Parser.parse [.number 1, Token.plus, .number 2, Token.minus, .number 3] =
      .ok (.binaryOp (.binaryOp (.number 1) Token.plus (.number 2)) Token.minus
        (.number 3)) ∧
    Parser.parse [.number 1, Token.multiply, .number 2, Token.divide, .number 3] =
      .ok (.binaryOp (.binaryOp (.number 1) Token.multiply (.number 2)) Token.divide
        (.number 3)) :=
  ⟨c7_exponent_left_associative.2.2.1 1 2 3 Token.plus Token.minus
      (Or.inl rfl) (Or.inr rfl),
   c7_exponent_left_associative.2.2.2 1 2 3 Token.multiply Token.divide
      (Or.inl rfl) (Or.inr rfl)⟩

/-- C8: `evaluate` reproduces its error strings verbatim at the claim's
three inputs: the empty string, `"sqrt()"`, and `"poop(3)"` (the position
is counted in Unicode codepoints). -/
theorem c8_error_strings_verbatim (sem : FuncSem) (mode : AngleMode) :
    evaluate sem mode "" = .err "Please supply an expression to evaluate" ∧
    evaluate sem mode "sqrt()" = .err "Unexpected token: CloseParen" ∧
    evaluate sem mode "poop(3)" = .err "Invalid token 'p' at position: 0" :=
  ⟨rfl, rfl, rfl⟩

/-- C9: `try_convert` returns 0.0 whenever either unit is absent and
delegates to `convert` exactly when both are present. -/
theorem c9_try_convert_zero_on_missing :
    (∀ (x : ℚ) (toU : Option conversions.Unit), try_convert x none toU = 0) ∧
    (∀ (x : ℚ) (fromU : Option conversions.Unit), try_convert x fromU none = 0) ∧
    (∀ (x : ℚ) (a b : conversions.Unit),
      try_convert x (some a) (some b) = convert x a b) := by
  refine ⟨fun x toU => ?_, fun x fromU => ?_, fun x a b => rfl⟩
  · cases toU <;> rfl
  · cases fromU <;> rfl

end claims

/-- A token that can extend a complete expression: one of the five binary
operator tokens the parser's accumulation loops continue on. -/
def Token.isBinOp : Token → Bool
  | .plus | .minus | .multiply | .divide | .exponent => true
  | _ => false

/-- Appending `extra` behind a parser run that stops with leftover `rest`
is invisible to the run when either some tokens were left (`rest ≠ []`, so
every peek saw the same token) or the first appended token is not a binary
operator (so the final loop peeks still break). -/
def ExtOk (rest extra : List Token) : Prop :=
  rest = [] → ∀ hd tl, extra = hd :: tl → hd.isBinOp = false

theorem extOk_cons {t : Token} {l extra : List Token} : ExtOk (t :: l) extra :=
  fun h => nomatch h

/-- The exponent loop run on an empty token list leaves an empty rest. -/
theorem parseExpLoop_nil {f : Nat} {node n : AstNode} {rest : List Token}
    (h : parseExpLoop f node [] = (.ok n, rest)) : n = node ∧ rest = [] := by
  cases f with
  | zero => simp [parseExpLoop, fuelMsg] at h
  | succ g =>
      simp only [parseExpLoop, Prod.mk.injEq, Except.ok.injEq] at h
      exact ⟨h.1.symm, h.2.symm⟩

/-- The multiply/divide loop run on an empty token list leaves an empty
rest. -/
theorem parseMulDivLoop_nil {f : Nat} {node n : AstNode} {rest : List Token}
    (h : parseMulDivLoop f node [] = (.ok n, rest)) : n = node ∧ rest = [] := by
  cases f with
  | zero => simp [parseMulDivLoop, fuelMsg] at h
  | succ g =>
      simp only [parseMulDivLoop, Prod.mk.injEq, Except.ok.injEq] at h
      exact ⟨h.1.symm, h.2.symm⟩

/-- The add/subtract loop run on an empty token list leaves an empty rest. -/
theorem parseAddSubLoop_nil {f : Nat} {node n : AstNode} {rest : List Token}
    (h : parseAddSubLoop f node [] = (.ok n, rest)) : n = node ∧ rest = [] := by
  cases f with
  | zero => simp [parseAddSubLoop, fuelMsg] at h
  | succ g =>
      simp only [parseAddSubLoop, Prod.mk.injEq, Except.ok.injEq] at h
      exact ⟨h.1.symm, h.2.symm⟩

/-- Append invariance of every parser routine, simultaneously by induction
on the fuel: a successful run is unchanged by tokens appended behind its
leftover, provided the appended head cannot continue a loop at the very end
(`ExtOk`). -/
theorem parseAppendAux : ∀ f : Nat,
    (∀ ts n rest extra, parsePrimary f ts = (.ok n, rest) → ExtOk rest extra →
      parsePrimary f (ts ++ extra) = (.ok n, rest ++ extra)) ∧
    (∀ ts n rest extra, parseExponent f ts = (.ok n, rest) → ExtOk rest extra →
      parseExponent f (ts ++ extra) = (.ok n, rest ++ extra)) ∧
    (∀ node ts n rest extra, parseExpLoop f node ts = (.ok n, rest) →
      ExtOk rest extra →
      parseExpLoop f node (ts ++ extra) = (.ok n, rest ++ extra)) ∧
    (∀ ts n rest extra, parseMulDiv f ts = (.ok n, rest) → ExtOk rest extra →
      parseMulDiv f (ts ++ extra) = (.ok n, rest ++ extra)) ∧
    (∀ node ts n rest extra, parseMulDivLoop f node ts = (.ok n, rest) →
      ExtOk rest extra →
      parseMulDivLoop f node (ts ++ extra) = (.ok n, rest ++ extra)) ∧
    (∀ ts n rest extra, parseAddSub f ts = (.ok n, rest) → ExtOk rest extra →
      parseAddSub f (ts ++ extra) = (.ok n, rest ++ extra)) ∧
    (∀ node ts n rest extra, parseAddSubLoop f node ts = (.ok n, rest) →
      ExtOk rest extra →
      parseAddSubLoop f node (ts ++ extra) = (.ok n, rest ++ extra)) := by
  intro f
  induction f with
  | zero =>
      refine ⟨?_, ?_, ?_, ?_, ?_, ?_, ?_⟩ <;> intros <;>
        simp_all [parsePrimary, parseExponent, parseExpLoop, parseMulDiv,
          parseMulDivLoop, parseAddSub, parseAddSubLoop, fuelMsg]
  | succ f ih =>
      obtain ⟨ihP, ihE, ihEL, ihM, ihML, ihA, ihAL⟩ := ih
      refine ⟨?_, ?_, ?_, ?_, ?_, ?_, ?_⟩
      · -- parsePrimary
        intro ts n rest extra h hx
        cases ts with
        | nil => simp [parsePrimary] at h
        | cons t ts0 =>
          cases t with
          | number v =>
              simp only [parsePrimary, Prod.mk.injEq, Except.ok.injEq] at h
              obtain ⟨rfl, rfl⟩ := h
              simp [parsePrimary]
          | openParen =>
              rcases hsub : parseAddSub f ts0 with ⟨r, rest1⟩
              simp only [parsePrimary] at h
              rw [hsub] at h
              cases rest1 with
              | nil => simp at h
              | cons t2 rest2 =>
                cases t2 with
                | closeParen =>
                    rw [Prod.mk.injEq] at h
                    obtain ⟨rfl, rfl⟩ := h
                    simp only [List.cons_append, parsePrimary, List.append_eq]
                    rw [ihA _ _ _ extra hsub extOk_cons]
                    rfl
                | number v => simp at h
                | plus => simp at h
                | minus => simp at h
                | multiply => simp at h
                | divide => simp at h
                | exponent => simp at h
                | openParen => simp at h
                | unaryFunction g => simp at h
          | minus =>
              rcases hsub : parsePrimary f ts0 with ⟨r, rest1⟩
              simp only [parsePrimary] at h
              rw [hsub] at h
              cases r with
              | error e => simp at h
              | ok e =>
                  rw [Prod.mk.injEq] at h
                  obtain ⟨h1, rfl⟩ := h
                  injection h1 with h1
                  subst h1
                  simp only [List.cons_append, parsePrimary, List.append_eq]
                  rw [ihP _ _ _ extra hsub hx]
          | unaryFunction fn =>
              cases ts0 with
              | nil => simp [parsePrimary] at h
              | cons t1 rest0 =>
                cases t1 with
                | openParen =>
                    rcases hsub : parseAddSub f rest0 with ⟨r, rest2⟩
                    simp only [parsePrimary] at h
                    rw [hsub] at h
                    cases r with
                    | error e => simp at h
                    | ok e =>
                      cases rest2 with
                      | nil => simp at h
                      | cons t2 rest3 =>
                        cases t2 with
                        | closeParen =>
                            rw [Prod.mk.injEq] at h
                            obtain ⟨h1, rfl⟩ := h
                            injection h1 with h1
                            subst h1
                            simp only [List.cons_append, parsePrimary, List.append_eq]
                            rw [ihA _ _ _ extra hsub extOk_cons]
                            rfl
                        | number v => simp at h
                        | plus => simp at h
                        | minus => simp at h
                        | multiply => simp at h
                        | divide => simp at h
                        | exponent => simp at h
                        | openParen => simp at h
                        | unaryFunction g => simp at h
                | number v => simp [parsePrimary] at h
                | plus => simp [parsePrimary] at h
                | minus => simp [parsePrimary] at h
                | multiply => simp [parsePrimary] at h
                | divide => simp [parsePrimary] at h
                | exponent => simp [parsePrimary] at h
                | closeParen => simp [parsePrimary] at h
                | unaryFunction g => simp [parsePrimary] at h
          | plus => simp [parsePrimary] at h
          | multiply => simp [parsePrimary] at h
          | divide => simp [parsePrimary] at h
          | exponent => simp [parsePrimary] at h
          | closeParen => simp [parsePrimary] at h
      · -- parseExponent
        intro ts n rest extra h hx
        rcases hsub : parsePrimary f ts with ⟨r, rest1⟩
        simp only [parseExponent] at h ⊢
        rw [hsub] at h
        cases r with
        | error e => simp at h
        | ok node =>
            have hx1 : ExtOk rest1 extra := by
              intro hnil hd tl he
              subst hnil
              obtain ⟨-, hrest⟩ := parseExpLoop_nil h
              exact hx hrest hd tl he
            rw [ihP _ _ _ extra hsub hx1]
            exact ihEL _ _ _ _ extra h hx
      · -- parseExpLoop
        intro node ts n rest extra h hx
        cases ts with
        | nil =>
            simp only [parseExpLoop, Prod.mk.injEq, Except.ok.injEq] at h
            obtain ⟨h1, h2⟩ := h
            subst h1
            subst h2
            cases extra with
            | nil => rfl
            | cons hd tl =>
                have hbin : hd.isBinOp = false := hx rfl hd tl rfl
                cases hd with
                | number v => rfl
                | plus => rfl
                | minus => rfl
                | multiply => rfl
                | divide => rfl
                | exponent => simp [Token.isBinOp] at hbin
                | openParen => rfl
                | closeParen => rfl
                | unaryFunction g => rfl
        | cons t ts0 =>
          cases t with
          | number v =>
              simp only [parseExpLoop, Prod.mk.injEq, Except.ok.injEq] at h
              obtain ⟨h1, h2⟩ := h
              subst h1
              subst h2
              rfl
          | plus =>
              simp only [parseExpLoop, Prod.mk.injEq, Except.ok.injEq] at h
              obtain ⟨h1, h2⟩ := h
              subst h1
              subst h2
              rfl
          | minus =>
              simp only [parseExpLoop, Prod.mk.injEq, Except.ok.injEq] at h
              obtain ⟨h1, h2⟩ := h
              subst h1
              subst h2
              rfl
          | multiply =>
              simp only [parseExpLoop, Prod.mk.injEq, Except.ok.injEq] at h
              obtain ⟨h1, h2⟩ := h
              subst h1
              subst h2
              rfl
          | divide =>
              simp only [parseExpLoop, Prod.mk.injEq, Except.ok.injEq] at h
              obtain ⟨h1, h2⟩ := h
              subst h1
              subst h2
              rfl
          | exponent =>
              rcases hsub : parsePrimary f ts0 with ⟨r, rest1⟩
              simp only [parseExpLoop] at h
              rw [hsub] at h
              cases r with
              | error e => simp at h
              | ok right =>
                  have hx1 : ExtOk rest1 extra := by
                    intro hnil hd tl he
                    subst hnil
                    obtain ⟨-, hrest⟩ := parseExpLoop_nil h
                    exact hx hrest hd tl he
                  simp only [List.cons_append, parseExpLoop, List.append_eq]
                  rw [ihP _ _ _ extra hsub hx1]
                  exact ihEL _ _ _ _ extra h hx
          | openParen =>
              simp only [parseExpLoop, Prod.mk.injEq, Except.ok.injEq] at h
              obtain ⟨h1, h2⟩ := h
              subst h1
              subst h2
              rfl
          | closeParen =>
              simp only [parseExpLoop, Prod.mk.injEq, Except.ok.injEq] at h
              obtain ⟨h1, h2⟩ := h
              subst h1
              subst h2
              rfl
          | unaryFunction g =>
              simp only [parseExpLoop, Prod.mk.injEq, Except.ok.injEq] at h
              obtain ⟨h1, h2⟩ := h
              subst h1
              subst h2
              rfl
      · -- parseMulDiv
        intro ts n rest extra h hx
        rcases hsub : parseExponent f ts with ⟨r, rest1⟩
        simp only [parseMulDiv] at h ⊢
        rw [hsub] at h
        cases r with
        | error e => simp at h
        | ok node =>
            have hx1 : ExtOk rest1 extra := by
              intro hnil hd tl he
              subst hnil
              obtain ⟨-, hrest⟩ := parseMulDivLoop_nil h
              exact hx hrest hd tl he
            rw [ihE _ _ _ extra hsub hx1]
            exact ihML _ _ _ _ extra h hx
      · -- parseMulDivLoop
        intro node ts n rest extra h hx
        cases ts with
        | nil =>
            simp only [parseMulDivLoop, Prod.mk.injEq, Except.ok.injEq] at h
            obtain ⟨h1, h2⟩ := h
            subst h1
            subst h2
            cases extra with
            | nil => rfl
            | cons hd tl =>
                have hbin : hd.isBinOp = false := hx rfl hd tl rfl
                cases hd with
                | number v => rfl
                | plus => rfl
                | minus => rfl
                | multiply => simp [Token.isBinOp] at hbin
                | divide => simp [Token.isBinOp] at hbin
                | exponent => rfl
                | openParen => rfl
                | closeParen => rfl
                | unaryFunction g => rfl
        | cons t ts0 =>
          cases t with
          | number v =>
              simp only [parseMulDivLoop, Prod.mk.injEq, Except.ok.injEq] at h
              obtain ⟨h1, h2⟩ := h
              subst h1
              subst h2
              rfl
          | plus =>
              simp only [parseMulDivLoop, Prod.mk.injEq, Except.ok.injEq] at h
              obtain ⟨h1, h2⟩ := h
              subst h1
              subst h2
              rfl
          | minus =>
              simp only [parseMulDivLoop, Prod.mk.injEq, Except.ok.injEq] at h
              obtain ⟨h1, h2⟩ := h
              subst h1
              subst h2
              rfl
          | multiply =>
              rcases hsub : parseExponent f ts0 with ⟨r, rest1⟩
              simp only [parseMulDivLoop] at h
              rw [hsub] at h
              cases r with
              | error e => simp at h
              | ok right =>
                  have hx1 : ExtOk rest1 extra := by
                    intro hnil hd tl he
                    subst hnil
                    obtain ⟨-, hrest⟩ := parseMulDivLoop_nil h
                    exact hx hrest hd tl he
                  simp only [List.cons_append, parseMulDivLoop, List.append_eq]
                  rw [ihE _ _ _ extra hsub hx1]
                  exact ihML _ _ _ _ extra h hx
          | divide =>
              rcases hsub : parseExponent f ts0 with ⟨r, rest1⟩
              simp only [parseMulDivLoop] at h
              rw [hsub] at h
              cases r with
              | error e => simp at h
              | ok right =>
                  have hx1 : ExtOk rest1 extra := by
                    intro hnil hd tl he
                    subst hnil
                    obtain ⟨-, hrest⟩ := parseMulDivLoop_nil h
                    exact hx hrest hd tl he
                  simp only [List.cons_append, parseMulDivLoop, List.append_eq]
                  rw [ihE _ _ _ extra hsub hx1]
                  exact ihML _ _ _ _ extra h hx
          | exponent =>
              simp only [parseMulDivLoop, Prod.mk.injEq, Except.ok.injEq] at h
              obtain ⟨h1, h2⟩ := h
              subst h1
              subst h2
              rfl
          | openParen =>
              simp only [parseMulDivLoop, Prod.mk.injEq, Except.ok.injEq] at h
              obtain ⟨h1, h2⟩ := h
              subst h1
              subst h2
              rfl
          | closeParen =>
              simp only [parseMulDivLoop, Prod.mk.injEq, Except.ok.injEq] at h
              obtain ⟨h1, h2⟩ := h
              subst h1
              subst h2
              rfl
          | unaryFunction g =>
              simp only [parseMulDivLoop, Prod.mk.injEq, Except.ok.injEq] at h
              obtain ⟨h1, h2⟩ := h
              subst h1
              subst h2
              rfl
      · -- parseAddSub
        intro ts n rest extra h hx
        rcases hsub : parseMulDiv f ts with ⟨r, rest1⟩
        simp only [parseAddSub] at h ⊢
        rw [hsub] at h
        cases r with
        | error e => simp at h
        | ok node =>
            have hx1 : ExtOk rest1 extra := by
              intro hnil hd tl he
              subst hnil
              obtain ⟨-, hrest⟩ := parseAddSubLoop_nil h
              exact hx hrest hd tl he
            rw [ihM _ _ _ extra hsub hx1]
            exact ihAL _ _ _ _ extra h hx
      · -- parseAddSubLoop
        intro node ts n rest extra h hx
        cases ts with
        | nil =>
            simp only [parseAddSubLoop, Prod.mk.injEq, Except.ok.injEq] at h
            obtain ⟨h1, h2⟩ := h
            subst h1
            subst h2
            cases extra with
            | nil => rfl
            | cons hd tl =>
                have hbin : hd.isBinOp = false := hx rfl hd tl rfl
                cases hd with
                | number v => rfl
                | plus => simp [Token.isBinOp] at hbin
                | minus => simp [Token.isBinOp] at hbin
                | multiply => rfl
                | divide => rfl
                | exponent => rfl
                | openParen => rfl
                | closeParen => rfl
                | unaryFunction g => rfl
        | cons t ts0 =>
          cases t with
          | number v =>
              simp only [parseAddSubLoop, Prod.mk.injEq, Except.ok.injEq] at h
              obtain ⟨h1, h2⟩ := h
              subst h1
              subst h2
              rfl
          | plus =>
              rcases hsub : parseMulDiv f ts0 with ⟨r, rest1⟩
              simp only [parseAddSubLoop] at h
              rw [hsub] at h
              cases r with
              | error e => simp at h
              | ok right =>
                  have hx1 : ExtOk rest1 extra := by
                    intro hnil hd tl he
                    subst hnil
                    obtain ⟨-, hrest⟩ := parseAddSubLoop_nil h
                    exact hx hrest hd tl he
                  simp only [List.cons_append, parseAddSubLoop, List.append_eq]
                  rw [ihM _ _ _ extra hsub hx1]
                  exact ihAL _ _ _ _ extra h hx
          | minus =>
              rcases hsub : parseMulDiv f ts0 with ⟨r, rest1⟩
              simp only [parseAddSubLoop] at h
              rw [hsub] at h
              cases r with
              | error e => simp at h
              | ok right =>
                  have hx1 : ExtOk rest1 extra := by
                    intro hnil hd tl he
                    subst hnil
                    obtain ⟨-, hrest⟩ := parseAddSubLoop_nil h
                    exact hx hrest hd tl he
                  simp only [List.cons_append, parseAddSubLoop, List.append_eq]
                  rw [ihM _ _ _ extra hsub hx1]
                  exact ihAL _ _ _ _ extra h hx
          | multiply =>
              simp only [parseAddSubLoop, Prod.mk.injEq, Except.ok.injEq] at h
              obtain ⟨h1, h2⟩ := h
              subst h1
              subst h2
              rfl
          | divide =>
              simp only [parseAddSubLoop, Prod.mk.injEq, Except.ok.injEq] at h
              obtain ⟨h1, h2⟩ := h
              subst h1
              subst h2
              rfl
          | exponent =>
              simp only [parseAddSubLoop, Prod.mk.injEq, Except.ok.injEq] at h
              obtain ⟨h1, h2⟩ := h
              subst h1
              subst h2
              rfl
          | openParen =>
              simp only [parseAddSubLoop, Prod.mk.injEq, Except.ok.injEq] at h
              obtain ⟨h1, h2⟩ := h
              subst h1
              subst h2
              rfl
          | closeParen =>
              simp only [parseAddSubLoop, Prod.mk.injEq, Except.ok.injEq] at h
              obtain ⟨h1, h2⟩ := h
              subst h1
              subst h2
              rfl
          | unaryFunction g =>
              simp only [parseAddSubLoop, Prod.mk.injEq, Except.ok.injEq] at h
              obtain ⟨h1, h2⟩ := h
              subst h1
              subst h2
              rfl


/-- C10: `Parser::parse` returns the AST of the leading expression and
silently ignores the tokens remaining after it: whenever a token list `ts`
parses completely to an AST `n` and is followed by tokens whose head cannot
extend the expression (is not one of the five binary operator tokens),
parsing the concatenation still succeeds with `n`; in particular
`evaluate("2 3")` and `evaluate("2)")` both return `Ok(2.0)`. -/
theorem c10_trailing_tokens_ignored :
    (∀ (ts extra : List Token) (n : AstNode) (hd : Token) (tl : List Token),
      parseAddSub (parseFuel (ts ++ extra)) ts = (.ok n, []) →
      extra = hd :: tl → hd.isBinOp = false →
      Parser.parse (ts ++ extra) = .ok n) ∧
    (∀ (sem : FuncSem) (mode : AngleMode),
      evaluate sem mode "2 3" = .ok 2 ∧ evaluate sem mode "2)" = .ok 2) := by
  constructor
  · intro ts extra n hd tl h he hbin
    subst he
    have hx : ExtOk ([] : List Token) (hd :: tl) := by
      intro _ hd2 tl2 he2
      injection he2 with e1 _
      rw [e1] at hbin
      exact hbin
    have hres := (parseAppendAux (parseFuel (ts ++ hd :: tl))).2.2.2.2.2.1
      ts n [] (hd :: tl) h hx
    unfold Parser.parse
    rw [hres]
  · intro sem mode
    exact ⟨rfl, rfl⟩

/-- Witness for C10: the complete expression `[Number 2]` followed by the
non-operator token `Number 3` (the tokenization of `"2 3"`). -/
theorem c10_trailing_tokens_ignored_witness :
    parseAddSub (parseFuel ([Token.number 2] ++ [Token.number 3]))
      [Token.number 2] = (.ok (.number 2), []) ∧
    (Token.number 3).isBinOp = false ∧
    Parser.parse ([Token.number 2] ++ [Token.number 3]) = .ok (.number 2) :=
  ⟨rfl, rfl, c10_trailing_tokens_ignored.1 [Token.number 2] [Token.number 3]
      (.number 2) (Token.number 3) [] rfl rfl rfl⟩

end RustyCalc
